import Mathlib

/-!
Verification of the IC50 calculator (src/turguts.py) against its
natural-language specification.

The computational core lives in the calculate-button handler
(turguts.py lines 325-497).  We embed it shallowly:

* numpy float arithmetic is modelled by the type RF, a real number
  extended with the IEEE specials +inf, -inf and nan, because numpy
  division by zero and log of a nonpositive number produce these
  values silently (with a warning, not an exception);
* the scipy curve_fit call is an external collaborator: it is modelled
  as an abstract function argument of type SolverFn, with the
  documented scipy bound guarantee (lb <= popt <= ub on success)
  available as the predicate SolverContract;
* Python exceptions are modelled as the error side of CalcResult:
  everything the handler does runs inside a single try/except Exception
  block whose except branch (lines 494-497) shows a fixed generic
  message plus the exception detail, modelled as
  CalcResult.errorBranch detail.
-/

namespace Turguts

/-- A numpy double where the claims need IEEE specials: a finite real,
+inf, -inf or nan. -/
inductive RF where
  | fin (x : ℝ)
  | pinf
  | ninf
  | nan

/-- numpy elementwise division, as used at line 332
(abs means / control mean): division by zero yields a signed infinity
or nan silently, never an exception. -/
noncomputable def RF.div : RF → RF → RF
  | .nan, _ => .nan
  | _, .nan => .nan
  | .fin a, .fin c =>
      if c ≠ 0 then .fin (a / c)
      else if 0 < a then .pinf
      else if a < 0 then .ninf
      else .nan
  | .pinf, .fin c => if 0 ≤ c then .pinf else .ninf
  | .ninf, .fin c => if 0 ≤ c then .ninf else .pinf
  | .fin _, .pinf => .fin 0
  | .fin _, .ninf => .fin 0
  | .pinf, .pinf => .nan
  | .pinf, .ninf => .nan
  | .ninf, .pinf => .nan
  | .ninf, .ninf => .nan

/-- Multiplication by the positive literal 100, the final step of the
normalization at line 332. -/
noncomputable def RF.times100 : RF → RF
  | .fin x => .fin (x * 100)
  | .pinf => .pinf
  | .ninf => .ninf
  | .nan => .nan

/-- IEEE addition, used to model the summation inside np.mean at
line 334 (np.mean over np.log values). -/
noncomputable def RF.add : RF → RF → RF
  | .nan, _ => .nan
  | _, .nan => .nan
  | .pinf, .ninf => .nan
  | .ninf, .pinf => .nan
  | .pinf, _ => .pinf
  | _, .pinf => .pinf
  | .ninf, _ => .ninf
  | _, .ninf => .ninf
  | .fin a, .fin b => .fin (a + b)

/-- Sum of a list of numpy values (running reduction from 0; for the
lists the claims touch, the grouping of the summation is irrelevant:
all-finite lists sum to the real sum, a nan poisons the sum, and a
-inf among finite values gives -inf). -/
noncomputable def rfSum (l : List RF) : RF := l.foldl RF.add (.fin 0)

/-- Division of a numpy value by a list length, the second half of
np.mean; numpy's mean of an empty array is nan. -/
noncomputable def RF.divNat : RF → ℕ → RF
  | _, 0 => .nan
  | .fin a, n => .fin (a / n)
  | .pinf, _ => .pinf
  | .ninf, _ => .ninf
  | .nan, _ => .nan

/-- np.mean over a list of numpy values (line 334). -/
noncomputable def rfMean (l : List RF) : RF := (rfSum l).divNat l.length

/-- Arithmetic mean of a list of plain reals (np.mean of a finite
float array, lines 332). -/
noncomputable def meanR (l : List ℝ) : ℝ := l.sum / l.length

/-- np.mean of a float array as a numpy value: nan on the empty array,
otherwise the finite arithmetic mean. -/
noncomputable def np_mean (l : List ℝ) : RF :=
  if l = [] then .nan else .fin (meanR l)

/-- np.log on a float (line 334): the real log for positive input,
-inf at zero, nan for negative input -- a warning in numpy, never an
exception. -/
noncomputable def npLog (x : ℝ) : RF :=
  if 0 < x then .fin (Real.log x) else if x = 0 then .ninf else .nan

/-- np.exp on a numpy value (line 334): exp(-inf) = 0, exp(nan) = nan. -/
noncomputable def npExp : RF → RF
  | .fin x => .fin (Real.exp x)
  | .pinf => .pinf
  | .ninf => .fin 0
  | .nan => .nan

/-- One step of Python's builtin min: the accumulator is replaced
exactly when the next element compares strictly below it; every
comparison against nan is false, so a nan accumulator persists and a
nan element never replaces the accumulator. -/
noncomputable def RF.pymin2 : RF → RF → RF
  | acc, .nan => acc
  | .nan, _ => .nan
  | acc, .pinf => acc
  | _, .ninf => .ninf
  | .pinf, .fin b => .fin b
  | .ninf, .fin _ => .ninf
  | .fin a, .fin b => if b < a then .fin b else .fin a

/-- One step of Python's builtin max, symmetric to RF.pymin2. -/
noncomputable def RF.pymax2 : RF → RF → RF
  | acc, .nan => acc
  | .nan, _ => .nan
  | acc, .ninf => acc
  | _, .pinf => .pinf
  | .ninf, .fin b => .fin b
  | .pinf, .fin _ => .pinf
  | .fin a, .fin b => if a < b then .fin b else .fin a

/-- Python min over a list of numpy values (min(response) at
line 334).  Python raises ValueError on an empty sequence; the
handler models that raise before this function is ever applied, so
the empty case here is an arbitrary unused value. -/
noncomputable def pymin : List RF → RF
  | [] => .nan
  | x :: xs => xs.foldl RF.pymin2 x

/-- Python max over a list of numpy values (max(response) at
line 334). -/
noncomputable def pymax : List RF → RF
  | [] => .nan
  | x :: xs => xs.foldl RF.pymax2 x

/-- Python min over a list of plain floats (min(concs) at line 366).
Empty case unused (guarded upstream). -/
noncomputable def pyminR : List ℝ → ℝ
  | [] => 0
  | x :: xs => xs.foldl (fun a b => if b < a then b else a) x

/-- Python max over a list of plain floats (max(concs) at lines 335
and 366). Empty case unused (guarded upstream). -/
noncomputable def pymaxR : List ℝ → ℝ
  | [] => 0
  | x :: xs => xs.foldl (fun a b => if a < b then b else a) x

/-! ## Input coercion (line 328)

A raw table cell is either numeric (some value) or blank/non-numeric
(none, what pd.to_numeric with errors coerce turns into NaN).  A raw
row holds the concentration cell followed by the replicate cells;
dropna then removes every row containing a NaN. -/

/-- One raw row of the editable table: the concentration cell and the
replicate absorbance cells. -/
structure RawRow where
  conc : Option ℝ
  reps : List (Option ℝ)

/-- Coerce a list of cells: succeeds with the numeric values exactly
when every cell is numeric (a single NaN makes dropna drop the row). -/
def coerceCells : List (Option ℝ) → Option (List ℝ)
  | [] => some []
  | none :: _ => none
  | some x :: rest => (coerceCells rest).map (fun l => x :: l)

/-- Coerce one row: kept with its numeric contents iff the
concentration cell and every replicate cell are numeric. -/
def coerceRow (r : RawRow) : Option (ℝ × List ℝ) :=
  match r.conc, coerceCells r.reps with
  | some c, some rs => some (c, rs)
  | _, _ => none

/-- Line 328: pd.to_numeric with errors coerce followed by dropna --
rows with any blank or non-numeric cell are dropped, the rest are kept
in order with their numeric values. -/
def coerceTable (t : List RawRow) : List (ℝ × List ℝ) :=
  t.filterMap coerceRow

/-! ## Normalization, initial guess, bounds (lines 332-335) -/

/-- Line 332: response = (abs_vals.mean(axis=1) / np.mean(control_vals)) * 100,
one numpy value per kept row.  A zero control mean flows through as a
signed infinity or nan; nothing is raised here. -/
noncomputable def responseList (rows : List (ℝ × List ℝ)) (control : List ℝ) :
    List RF :=
  rows.map fun r => ((np_mean r.2).div (np_mean control)).times100

/-- Line 334:
p0 = (min(response), max(response), np.exp(np.mean(np.log(concs))), 1.0). -/
noncomputable def p0 (response : List RF) (concs : List ℝ) : Fin 4 → RF :=
  ![pymin response, pymax response, npExp (rfMean (concs.map npLog)), .fin 1]

/-- Line 335, lower bounds: (0, 50, 0, 0.1) for
(bottom, top, ic50, hill). -/
noncomputable def bounds_lower : Fin 4 → ℝ := ![0, 50, 0, 0.1]

/-- Line 335, upper bounds: (100, 120, max(concs) * 10, 5). -/
noncomputable def bounds_upper (concs : List ℝ) : Fin 4 → ℝ :=
  ![100, 120, pymaxR concs * 10, 5]

/-! ## 4PL model and curve sampler (lines 257-258 and 366-367) -/

/-- Lines 257-258: the four-parameter logistic model
four_pl(x, bottom, top, ic50, hill) =
bottom + (top - bottom) / (1 + (x / ic50) ** hill).
The Python float power is real exponentiation. -/
noncomputable def four_pl (x bottom top ic50 hill : ℝ) : ℝ :=
  bottom + (top - bottom) / (1 + (x / ic50) ^ hill)

/-- np.log10, on the positive arguments the claims exercise. -/
noncomputable def np_log10 (x : ℝ) : ℝ := Real.logb 10 x

/-- np.logspace(a, b, n): n points 10 ^ (a + k * (b - a) / (n - 1))
for k = 0 .. n-1, endpoints included. -/
noncomputable def np_logspace (a b : ℝ) (n : ℕ) : List ℝ :=
  (List.range n).map fun k : ℕ =>
    (10 : ℝ) ^ (a + (k : ℝ) * ((b - a) / ((n : ℝ) - 1)))

/-- Line 366: xfit = np.logspace(np.log10(min(concs)), np.log10(max(concs)), 300). -/
noncomputable def xfit (concs : List ℝ) : List ℝ :=
  np_logspace (np_log10 (pyminR concs)) (np_log10 (pymaxR concs)) 300

/-- Line 367: yfit = four_pl(xfit, *popt), the model evaluated at every
sample abscissa with the fitted parameters. -/
noncomputable def yfit (concs : List ℝ) (popt : Fin 4 → ℝ) : List ℝ :=
  (xfit concs).map fun x => four_pl x (popt 0) (popt 1) (popt 2) (popt 3)

/-! ## The solver and the handler (lines 325-497) -/

/-- The external scipy curve_fit collaborator: it receives the
concentrations, the (numpy-valued) responses, the initial guess and
the two bound vectors, and either raises (error detail) or returns
(popt, pcov). -/
def SolverFn : Type :=
  List ℝ → List RF → (Fin 4 → RF) → (Fin 4 → ℝ) → (Fin 4 → ℝ) →
    Except String ((Fin 4 → ℝ) × (Fin 4 → Fin 4 → ℝ))

/-- The documented scipy guarantee for a bounded fit: parameters of a
successful fit lie within the supplied closed box lb <= popt <= ub. -/
def SolverContract (s : SolverFn) : Prop :=
  ∀ xs ys pinit lb ub popt pcov, s xs ys pinit lb ub = .ok (popt, pcov) →
    ∀ i, lb i ≤ popt i ∧ popt i ≤ ub i

/-- The success artifact the handler builds after a successful fit:
the extracted ic50 = popt[2] (line 345), interpolated into the result
metric box (lines 355-361), and the sampled fit curve (lines 366-367).
Nothing else numeric is part of the reported result: pcov is received
from the fitter but never read. -/
structure CalcSuccess where
  ic50 : ℝ
  xs : List ℝ
  ys : List ℝ

/-- The scalar values interpolated into the result metric box
(lines 355-361): only the fitted ic50. -/
noncomputable def CalcSuccess.metricValues (o : CalcSuccess) : List ℝ := [o.ic50]

/-- Boolean classifications surfaced in the result display: the
handler computes none (no flag of any kind appears in lines 345-492). -/
def CalcSuccess.reportedFlags (_ : CalcSuccess) : List Bool := []

/-- Outcome of one press of the calculate button: either the success
artifact, or the single catch-all except branch (lines 494-497), which
shows a fixed generic message and keeps the exception detail in a
separate expander. -/
inductive CalcResult where
  | success (out : CalcSuccess)
  | errorBranch (detail : String)

/-- The fit-and-report stage: consult the solver with the exact
arguments of line 337-344 and package its answer (lines 345, 366-367);
a solver exception propagates to the catch-all branch. -/
noncomputable def solverDispatch (rows : List (ℝ × List ℝ)) (control : List ℝ)
    (s : SolverFn) : CalcResult :=
  let concs := rows.map Prod.fst
  let response := responseList rows control
  match s concs response (p0 response concs) bounds_lower (bounds_upper concs) with
  | .error e => .errorBranch e
  | .ok (popt, _pcov) => .success ⟨popt 2, xfit concs, yfit concs popt⟩

/-- The body of the try block after coercion.  With no valid row left,
the first raise is min() of an empty sequence at line 334 (a Python
ValueError, caught at line 494); otherwise execution reaches the
curve_fit call unconditionally -- no validation of concentrations or
of the control mean happens anywhere before it. -/
noncomputable def fitStage (rows : List (ℝ × List ℝ)) (control : List ℝ)
    (s : SolverFn) : CalcResult :=
  match rows with
  | [] => .errorBranch "min() arg is an empty sequence"
  | _ :: _ => solverDispatch rows control s

/-- The calculate handler (lines 325-497): coercion (line 328) then
the fit stage, all inside one try/except Exception. -/
noncomputable def calculateHandler (table : List RawRow) (control : List ℝ)
    (s : SolverFn) : CalcResult :=
  fitStage (coerceTable table) control s

/-- Concentration column of the coerced table (line 329). -/
def concsOf (table : List RawRow) : List ℝ :=
  (coerceTable table).map Prod.fst

/-! ## Inference quantities, modelled from the spec

The specification section 4.4 describes an Inference Engine deriving a
standard error and a Wald interval from the fit covariance, and an
in-range classification.  No corresponding code exists in the source
(pcov is unpacked at line 337 and never used; no flag is computed), so
these are spec-side definitions used to compare the claims against the
code artifact. -/

/-- Modelled from the spec: ic50_se = sqrt(covariance[ic50][ic50])
(section 4.4); absent from the code. -/
noncomputable def spec_ic50_se (pcov : Fin 4 → Fin 4 → ℝ) : ℝ :=
  Real.sqrt (pcov 2 2)

/-- Modelled from the spec: ci_low = ic50 - 1.96 * ic50_se
(section 4.4); absent from the code. -/
noncomputable def spec_ci_low (ic50 se : ℝ) : ℝ := ic50 - 1.96 * se

/-- Modelled from the spec: ci_high = ic50 + 1.96 * ic50_se
(section 4.4); absent from the code. -/
noncomputable def spec_ci_high (ic50 se : ℝ) : ℝ := ic50 + 1.96 * se

/-- Modelled from the spec: in_range = ic50 <= max(concentration)
(section 4.4); absent from the code. -/
def spec_in_range (ic50 maxc : ℝ) : Prop := ic50 ≤ maxc

/-! ## Concrete fixtures used by the counterexamples and witnesses -/

/-- A small well-formed table: concentrations 1 and 10, two replicate
columns, all cells numeric. -/
noncomputable def exTable : List RawRow :=
  [⟨some 1, [some 0.9, some 0.8]⟩, ⟨some 10, [some 0.2, some 0.3]⟩]

/-- A table whose first concentration is 0 (nonpositive), all cells
numeric. -/
noncomputable def exTableZeroConc : List RawRow :=
  [⟨some 0, [some 0.5, some 0.6]⟩, ⟨some 1, [some 0.4, some 0.3]⟩]

/-- A well-formed control vector with nonzero mean. -/
noncomputable def exControl : List ℝ := [1, 1]

/-- The control vector the app starts from: every number input
defaults to 0.0 (line 296), so the control mean is exactly zero. -/
noncomputable def exControlZero : List ℝ := [0, 0]

/-- A concrete solver answer: parameters (bottom, top, ic50, hill) =
(0, 100, 30, 1). -/
noncomputable def exPopt : Fin 4 → ℝ := ![0, 100, 30, 1]

/-- A concrete solver answer with ic50 = 50, beyond the largest tested
concentration of exTable. -/
noncomputable def exPoptFar : Fin 4 → ℝ := ![0, 100, 50, 1]

/-- A concrete covariance whose ic50 diagonal entry is 4, so the
spec's standard error would be 2. -/
noncomputable def exPcov : Fin 4 → Fin 4 → ℝ := fun _ _ => 4

/-- A solver that always succeeds with a fixed answer. -/
def okSolver (popt : Fin 4 → ℝ) (pcov : Fin 4 → Fin 4 → ℝ) : SolverFn :=
  fun _ _ _ _ _ => .ok (popt, pcov)

/-- A solver that always raises with a fixed detail. -/
def failSolver (e : String) : SolverFn :=
  fun _ _ _ _ _ => .error e

/-- A solver that returns the lower bound vector when the supplied box
is nonempty and raises otherwise: it satisfies the scipy bound
contract. -/
noncomputable def feasSolver : SolverFn :=
  fun _ _ _ lb ub =>
    if ∀ i, lb i ≤ ub i then .ok (lb, fun _ _ => 0) else .error "infeasible bounds"

/-- feasSolver honours the closed-box bound guarantee. -/
theorem feasSolver_contract : SolverContract feasSolver := by
  intro xs ys pinit lb ub popt pcov h i
  unfold feasSolver at h
  split at h
  · rename_i hfeas
    cases h
    exact ⟨le_refl _, hfeas i⟩
  · cases h

/-! ## Supporting lemmas about the numpy arithmetic model -/

theorem RF.add_nan_left (x : RF) : RF.add .nan x = .nan := by
  cases x <;> rfl

theorem RF.add_nan_right (x : RF) : RF.add x .nan = .nan := by
  cases x <;> rfl

theorem foldl_add_nan (l : List RF) : l.foldl RF.add .nan = .nan := by
  induction l with
  | nil => rfl
  | cons x xs ih => simpa [RF.add_nan_left] using ih

/-- A nan anywhere in a numpy sum poisons the whole sum. -/
theorem foldl_add_of_nan_mem (l : List RF) :
    ∀ acc, RF.nan ∈ l → l.foldl RF.add acc = .nan := by
  induction l with
  | nil => intro acc h; cases h
  | cons x xs ih =>
      intro acc h
      rcases List.mem_cons.mp h with hx | hxs
      · subst hx
        simpa [RF.add_nan_right] using foldl_add_nan xs
      · exact ih _ hxs

/-- rfSum of a list containing a nan is nan. -/
theorem rfSum_of_nan_mem {l : List RF} (h : RF.nan ∈ l) : rfSum l = .nan :=
  foldl_add_of_nan_mem l _ h

/-- The values numpy log produces on a nonnegative float array:
finite or -inf. -/
def RF.finOrNinf : RF → Prop := fun r => r = .ninf ∨ ∃ a, r = .fin a

theorem RF.add_ninf_right {acc : RF} (h : acc.finOrNinf) :
    RF.add acc .ninf = .ninf := by
  rcases h with h | ⟨a, h⟩ <;> subst h <;> rfl

theorem RF.add_fin_finOrNinf {acc : RF} (h : acc.finOrNinf) (b : ℝ) :
    (RF.add acc (.fin b)).finOrNinf := by
  rcases h with h | ⟨a, h⟩ <;> subst h
  · exact Or.inl rfl
  · exact Or.inr ⟨a + b, rfl⟩

/-- Folding IEEE addition from -inf over finite-or-(-inf) values stays
at -inf. -/
theorem foldl_add_ninf (l : List RF) (h : ∀ x ∈ l, RF.finOrNinf x) :
    l.foldl RF.add .ninf = .ninf := by
  induction l with
  | nil => rfl
  | cons y ys ih =>
      have hstep : RF.add .ninf y = .ninf := by
        rcases h y (by simp) with hy | ⟨a, hy⟩ <;> subst hy <;> rfl
      rw [List.foldl_cons, hstep]
      exact ih fun z hz => h z (List.mem_cons_of_mem _ hz)

/-- A -inf among finite values (and no nan, no +inf) drives a numpy
sum to -inf. -/
theorem foldl_add_of_ninf_mem (l : List RF) :
    ∀ acc, acc.finOrNinf → (∀ x ∈ l, x.finOrNinf) → RF.ninf ∈ l →
      l.foldl RF.add acc = .ninf := by
  induction l with
  | nil => intro _ _ _ h; cases h
  | cons x xs ih =>
      intro acc hacc hall hmem
      rcases List.mem_cons.mp hmem with hx | hxs
      · subst hx
        rw [List.foldl_cons, RF.add_ninf_right hacc]
        exact foldl_add_ninf xs fun y hy => hall y (List.mem_cons_of_mem _ hy)
      · rcases hall x (by simp) with h | ⟨a, h⟩ <;> subst h
        · exact ih _ (Or.inl (RF.add_ninf_right hacc)) (fun y hy => hall y (List.mem_cons_of_mem _ hy)) hxs
        · exact ih _ (RF.add_fin_finOrNinf hacc a) (fun y hy => hall y (List.mem_cons_of_mem _ hy)) hxs

/-- Summing the embedding of a finite real list gives its real sum. -/
theorem foldl_add_map_fin (xs : List ℝ) :
    ∀ a, (xs.map RF.fin).foldl RF.add (.fin a) = .fin (a + xs.sum) := by
  induction xs with
  | nil => intro a; simp
  | cons x xs ih =>
      intro a
      rw [List.map_cons, List.foldl_cons,
        show RF.add (.fin a) (.fin x) = .fin (a + x) from rfl, ih,
        show a + (x :: xs).sum = a + x + xs.sum by simp; ring]

theorem rfSum_map_fin (xs : List ℝ) : rfSum (xs.map RF.fin) = .fin xs.sum := by
  simpa using foldl_add_map_fin xs 0

theorem RF.divNat_fin (a : ℝ) {n : ℕ} (h : n ≠ 0) :
    RF.divNat (.fin a) n = .fin (a / n) := by
  cases n with
  | zero => exact absurd rfl h
  | succ m => rfl

theorem RF.divNat_ninf {n : ℕ} (h : n ≠ 0) : RF.divNat .ninf n = .ninf := by
  cases n with
  | zero => exact absurd rfl h
  | succ m => rfl

/-- Python's one-step running minimum on reals is the lattice min. -/
theorem pyminStepR_eq_min :
    (fun (u v : ℝ) => if v < u then v else u) = min := by
  funext u v
  rcases lt_or_ge v u with h | h
  · rw [if_pos h]; exact (min_eq_right (le_of_lt h)).symm
  · rw [if_neg (not_lt.mpr h)]; exact (min_eq_left h).symm

/-- Python's one-step running maximum on reals is the lattice max. -/
theorem pymaxStepR_eq_max :
    (fun (u v : ℝ) => if u < v then v else u) = max := by
  funext u v
  rcases lt_or_ge u v with h | h
  · rw [if_pos h]; exact (max_eq_right (le_of_lt h)).symm
  · rw [if_neg (not_lt.mpr h)]; exact (max_eq_left h).symm

theorem foldl_min_le_init (xs : List ℝ) : ∀ a : ℝ, xs.foldl min a ≤ a := by
  induction xs with
  | nil => intro a; simp
  | cons x xs ih =>
      intro a
      calc xs.foldl min (min a x) ≤ min a x := ih _
        _ ≤ a := min_le_left _ _

theorem foldl_min_le_mem (xs : List ℝ) :
    ∀ a : ℝ, ∀ x ∈ xs, xs.foldl min a ≤ x := by
  induction xs with
  | nil => intro a x hx; cases hx
  | cons y ys ih =>
      intro a x hx
      rcases List.mem_cons.mp hx with h | h
      · subst h
        calc ys.foldl min (min a x) ≤ min a x := foldl_min_le_init ys _
          _ ≤ x := min_le_right _ _
      · exact ih _ x h

theorem foldl_min_mem (xs : List ℝ) :
    ∀ a : ℝ, xs.foldl min a = a ∨ xs.foldl min a ∈ xs := by
  induction xs with
  | nil => intro a; exact Or.inl rfl
  | cons y ys ih =>
      intro a
      rw [List.foldl_cons]
      rcases ih (min a y) with h | h
      · rw [h, min_def]
        by_cases hay : a ≤ y
        · exact Or.inl (if_pos hay)
        · rw [if_neg hay]; exact Or.inr (by simp)
      · exact Or.inr (List.mem_cons_of_mem _ h)

theorem foldl_max_init_le (xs : List ℝ) : ∀ a : ℝ, a ≤ xs.foldl max a := by
  induction xs with
  | nil => intro a; simp
  | cons x xs ih =>
      intro a
      calc a ≤ max a x := le_max_left _ _
        _ ≤ xs.foldl max (max a x) := ih _

theorem foldl_max_mem_le (xs : List ℝ) :
    ∀ a : ℝ, ∀ x ∈ xs, x ≤ xs.foldl max a := by
  induction xs with
  | nil => intro a x hx; cases hx
  | cons y ys ih =>
      intro a x hx
      rcases List.mem_cons.mp hx with h | h
      · subst h
        calc x ≤ max a x := le_max_right _ _
          _ ≤ ys.foldl max (max a x) := foldl_max_init_le ys _
      · exact ih _ x h

theorem foldl_max_mem (xs : List ℝ) :
    ∀ a : ℝ, xs.foldl max a = a ∨ xs.foldl max a ∈ xs := by
  induction xs with
  | nil => intro a; exact Or.inl rfl
  | cons y ys ih =>
      intro a
      rw [List.foldl_cons]
      rcases ih (max a y) with h | h
      · rw [h, max_def]
        by_cases hay : a ≤ y
        · rw [if_pos hay]; exact Or.inr (by simp)
        · exact Or.inl (if_neg hay)
      · exact Or.inr (List.mem_cons_of_mem _ h)

/-- Folding the Python min step over embedded finite values tracks the
real running minimum. -/
theorem foldl_pymin2_map_fin (xs : List ℝ) :
    ∀ a : ℝ, (xs.map RF.fin).foldl RF.pymin2 (.fin a) = .fin (xs.foldl min a) := by
  induction xs with
  | nil => intro a; rfl
  | cons x xs ih =>
      intro a
      rw [List.map_cons, List.foldl_cons, List.foldl_cons,
        show RF.pymin2 (.fin a) (.fin x) = .fin (min a x) by
          show (if x < a then RF.fin x else .fin a) = _
          rcases lt_or_ge x a with h | h
          · rw [if_pos h]; exact congrArg RF.fin (min_eq_right (le_of_lt h)).symm
          · rw [if_neg (not_lt.mpr h)]
            exact congrArg RF.fin (min_eq_left h).symm]
      exact ih _

/-- Folding the Python max step over embedded finite values tracks the
real running maximum. -/
theorem foldl_pymax2_map_fin (xs : List ℝ) :
    ∀ a : ℝ, (xs.map RF.fin).foldl RF.pymax2 (.fin a) = .fin (xs.foldl max a) := by
  induction xs with
  | nil => intro a; rfl
  | cons x xs ih =>
      intro a
      rw [List.map_cons, List.foldl_cons, List.foldl_cons,
        show RF.pymax2 (.fin a) (.fin x) = .fin (max a x) by
          show (if a < x then RF.fin x else .fin a) = _
          rcases lt_or_ge a x with h | h
          · rw [if_pos h]; exact congrArg RF.fin (max_eq_right (le_of_lt h)).symm
          · rw [if_neg (not_lt.mpr h)]
            exact congrArg RF.fin (max_eq_left h).symm]
      exact ih _

/-- Log of a product of positives is the sum of the logs. -/
theorem log_list_prod (xs : List ℝ) (h : ∀ x ∈ xs, 0 < x) :
    Real.log xs.prod = (xs.map Real.log).sum := by
  induction xs with
  | nil => simp
  | cons x xs ih =>
      rw [List.prod_cons, List.map_cons, List.sum_cons,
        Real.log_mul (ne_of_gt (h x (by simp)))
          (ne_of_gt (List.prod_pos fun y hy => h y (List.mem_cons_of_mem _ hy))),
        ih fun y hy => h y (List.mem_cons_of_mem _ hy)]

/-- The seed np.exp(np.mean(np.log(concs))) equals the geometric mean
(the n-th root of the product) when every concentration is positive. -/
theorem npExp_mean_log_eq_geom (concs : List ℝ) (h1 : concs ≠ [])
    (h2 : ∀ x ∈ concs, 0 < x) :
    npExp (rfMean (concs.map npLog)) =
      .fin (concs.prod ^ ((concs.length : ℝ))⁻¹) := by
  have hmap : concs.map npLog = (concs.map Real.log).map RF.fin := by
    rw [List.map_map]
    exact List.map_congr_left fun c hc => by
      simp only [Function.comp_apply, npLog, if_pos (h2 c hc)]
  have hn : concs.length ≠ 0 := fun h => h1 (List.length_eq_zero.mp h)
  rw [hmap, rfMean, rfSum_map_fin]
  rw [show ((concs.map Real.log).map RF.fin).length = concs.length by simp]
  rw [RF.divNat_fin _ hn]
  show RF.fin (Real.exp ((concs.map Real.log).sum / concs.length)) = _
  congr 1
  rw [← log_list_prod concs h2,
    Real.rpow_def_of_pos (List.prod_pos h2), div_eq_mul_inv, mul_comm]

/-! ## Claim theorems -/

/-- C9: for every bottom, top, hill, and every ic50 > 0, the 4PL model
evaluated at x = ic50 equals (bottom + top) / 2 -- the definitional
midpoint property of the fitted curve. -/
theorem C9_four_pl_midpoint (bottom top hill ic50 : ℝ) (h : 0 < ic50) :
    four_pl ic50 bottom top ic50 hill = (bottom + top) / 2 := by
  unfold four_pl
  rw [div_self (ne_of_gt h), Real.one_rpow]
  ring

/-- Witness for C9 at (bottom, top, hill, ic50) = (0, 100, 1, 2). -/
theorem C9_witness : four_pl 2 0 100 2 1 = (0 + 100) / 2 :=
  C9_four_pl_midpoint 0 100 1 2 (by norm_num)

/-- C6: for every valid row, the normalized response equals
100 * mean(replicates) / control_mean exactly, with no clamping of the
output to the interval from 0 to 100. -/
theorem C6_response_formula (rows : List (ℝ × List ℝ)) (control : List ℝ)
    (hc : control ≠ []) (hm : meanR control ≠ 0) (hr : ∀ r ∈ rows, r.2 ≠ []) :
    responseList rows control =
      rows.map fun r => .fin (100 * meanR r.2 / meanR control) := by
  unfold responseList
  refine List.map_congr_left fun r hrmem => ?_
  rw [np_mean, if_neg (hr r hrmem), np_mean, if_neg hc]
  show RF.times100 (if meanR control ≠ 0 then RF.fin (meanR r.2 / meanR control)
    else if 0 < meanR r.2 then .pinf else if meanR r.2 < 0 then .ninf else .nan) = _
  rw [if_pos hm]
  show RF.fin (meanR r.2 / meanR control * 100) = _
  congr 1
  ring

/-- Witness for C6: one row of replicate 2 against control [1]. -/
theorem C6_witness :
    responseList [((1 : ℝ), [(2 : ℝ)])] [(1 : ℝ)] =
      [RF.fin (100 * meanR [(2 : ℝ)] / meanR [(1 : ℝ)])] :=
  C6_response_formula [((1 : ℝ), [(2 : ℝ)])] [(1 : ℝ)]
    (by simp) (by norm_num [meanR]) (by simp)

/-- The success artifact the handler produces on exTable with the
okSolver answer exPopt. -/
noncomputable def exOut : CalcSuccess := ⟨30, xfit [1, 10], yfit [1, 10] exPopt⟩

/-- C1 (evaluated at a concrete successful fit): the handler reports
only the ic50 point estimate; the spec's standard error
sqrt(pcov[2][2]) and Wald interval are never computed -- the Fit
Result artifact contains neither ci_low nor ci_high, although the
covariance supplied by the fitter has a well-defined ic50 variance. -/
theorem C1_no_confidence_interval :
    calculateHandler exTable exControl (okSolver exPopt exPcov) = .success exOut ∧
    exOut.metricValues = [30] ∧
    spec_ic50_se exPcov = 2 ∧
    spec_ci_low 30 (spec_ic50_se exPcov) ∉ exOut.metricValues ∧
    spec_ci_high 30 (spec_ic50_se exPcov) ∉ exOut.metricValues := by
  have hse : spec_ic50_se exPcov = 2 := by
    rw [spec_ic50_se, exPcov, show (4 : ℝ) = 2 ^ 2 by norm_num,
      Real.sqrt_sq (by norm_num)]
  refine ⟨?_, rfl, hse, ?_, ?_⟩
  · simp [calculateHandler, fitStage, coerceTable, exTable, coerceRow, coerceCells,
      solverDispatch, okSolver, exOut, exPopt]
  · rw [hse]
    simp only [CalcSuccess.metricValues, spec_ci_low, exOut, List.mem_singleton]
    norm_num
  · rw [hse]
    simp only [CalcSuccess.metricValues, spec_ci_high, exOut, List.mem_singleton]
    norm_num

/-- The success artifact the handler produces on exTable with the
okSolver answer exPoptFar (ic50 = 50, past the tested range). -/
noncomputable def exOutFar : CalcSuccess :=
  ⟨50, xfit [1, 10], yfit [1, 10] exPoptFar⟩

/-- C2 counterexample: on a successful fit whose ic50 (50) exceeds the
largest tested concentration (10), the spec requires the result to
surface in_range = false; the handler's result carries no boolean
classification at all -- only the numeric ic50 is reported. -/
theorem C2_no_in_range_flag :
    calculateHandler exTable exControl (okSolver exPoptFar exPcov) =
      .success exOutFar ∧
    pymaxR (concsOf exTable) = 10 ∧
    ¬ spec_in_range exOutFar.ic50 (pymaxR (concsOf exTable)) ∧
    exOutFar.reportedFlags = [] ∧
    false ∉ exOutFar.reportedFlags := by
  have hmax : pymaxR (concsOf exTable) = 10 := by
    simp only [concsOf, coerceTable, exTable, coerceRow, coerceCells,
      List.filterMap, List.map]
    norm_num [pymaxR]
  refine ⟨?_, hmax, ?_, rfl, by simp [CalcSuccess.reportedFlags]⟩
  · simp [calculateHandler, fitStage, coerceTable, exTable, coerceRow, coerceCells,
      solverDispatch, okSolver, exOutFar, exPoptFar]
  · rw [hmax]
    show ¬ ((50 : ℝ) ≤ 10)
    norm_num

/-- C2 amended: the handler never computes an in-range classification;
every successful run reports the bare numeric ic50 = popt[2] with an
empty set of surfaced flags, regardless of how ic50 compares with the
tested concentrations. -/
theorem C2_amended_no_classification (t : List RawRow) (c : List ℝ)
    (popt : Fin 4 → ℝ) (pcov : Fin 4 → Fin 4 → ℝ) (h : coerceTable t ≠ []) :
    ∃ out, calculateHandler t c (okSolver popt pcov) = .success out ∧
      out.ic50 = popt 2 ∧ out.reportedFlags = [] := by
  cases ht : coerceTable t with
  | nil => exact absurd ht h
  | cons r rs =>
      refine ⟨⟨popt 2, xfit ((r :: rs).map Prod.fst),
        yfit ((r :: rs).map Prod.fst) popt⟩, ?_, rfl, rfl⟩
      simp [calculateHandler, ht, fitStage, solverDispatch, okSolver]

/-- Witness for C2 amended, at exTable / exControl / exPopt. -/
theorem C2_amended_witness :
    ∃ out, calculateHandler exTable exControl (okSolver exPopt exPcov) =
      .success out ∧ out.ic50 = exPopt 2 ∧ out.reportedFlags = [] :=
  C2_amended_no_classification exTable exControl exPopt exPcov
    (by simp [coerceTable, exTable, coerceRow, coerceCells])

/-- Unfolded form of the solver dispatch (the exact arguments of the
curve_fit call at lines 337-344). -/
theorem solverDispatch_eq (rows : List (ℝ × List ℝ)) (c : List ℝ) (s : SolverFn) :
    solverDispatch rows c s =
      match s (rows.map Prod.fst) (responseList rows c)
          (p0 (responseList rows c) (rows.map Prod.fst)) bounds_lower
          (bounds_upper (rows.map Prod.fst)) with
      | .error e => .errorBranch e
      | .ok (popt, _pcov) => .success ⟨popt 2, xfit (rows.map Prod.fst),
          yfit (rows.map Prod.fst) popt⟩ := rfl

/-- With at least one valid row after coercion, the handler is exactly
the solver dispatch: no validation sits between coercion and the
curve_fit call. -/
theorem calculateHandler_cons {t : List RawRow} {r : ℝ × List ℝ}
    {rs : List (ℝ × List ℝ)} (c : List ℝ) (s : SolverFn)
    (h : coerceTable t = r :: rs) :
    calculateHandler t c s = solverDispatch (r :: rs) c s := by
  unfold calculateHandler
  rw [h]
  rfl

/-- C10: every press of the calculate button either yields the numeric
success artifact or lands in the single catch-all branch carrying the
exception detail; a solver exception is caught there (no exception
escapes, no partial numeric result), and so is the empty-table
ValueError raised by min() before the fit. -/
theorem C10_catch_all (t : List RawRow) (c : List ℝ) (s : SolverFn) :
    ((∃ out, calculateHandler t c s = .success out) ∨
      (∃ d, calculateHandler t c s = .errorBranch d)) ∧
    (coerceTable t = [] →
      calculateHandler t c s = .errorBranch "min() arg is an empty sequence") ∧
    (∀ e, coerceTable t ≠ [] →
      s (concsOf t) (responseList (coerceTable t) c)
          (p0 (responseList (coerceTable t) c) (concsOf t))
          bounds_lower (bounds_upper (concsOf t)) = .error e →
      calculateHandler t c s = .errorBranch e) := by
  refine ⟨?_, ?_, ?_⟩
  · cases hct : coerceTable t with
    | nil =>
        refine Or.inr ⟨"min() arg is an empty sequence", ?_⟩
        unfold calculateHandler
        rw [hct]
        rfl
    | cons r rs =>
        rw [calculateHandler_cons c s hct, solverDispatch_eq]
        cases hs : s ((r :: rs).map Prod.fst) (responseList (r :: rs) c)
            (p0 (responseList (r :: rs) c) ((r :: rs).map Prod.fst))
            bounds_lower (bounds_upper ((r :: rs).map Prod.fst)) with
        | error e => exact Or.inr ⟨e, rfl⟩
        | ok pr =>
            obtain ⟨popt, pcov⟩ := pr
            exact Or.inl ⟨_, rfl⟩
  · intro h
    unfold calculateHandler
    rw [h]
    rfl
  · intro e hne hs
    cases hct : coerceTable t with
    | nil => exact absurd hct hne
    | cons r rs =>
        rw [calculateHandler_cons c s hct, solverDispatch_eq]
        simp only [concsOf] at hs
        rw [hct] at hs
        rw [hs]

/-- Witness for C10: with a solver that raises, a well-formed table
ends in the catch-all branch carrying the detail. -/
theorem C10_witness :
    calculateHandler exTable exControl (failSolver "fit did not converge") =
      .errorBranch "fit did not converge" :=
  (C10_catch_all exTable exControl (failSolver "fit did not converge")).2.2
    "fit did not converge"
    (by simp [coerceTable, exTable, coerceRow, coerceCells]) rfl

/-- The seed np.exp(np.mean(np.log(concs))) degenerates once some
concentration is nonpositive: nan if some concentration is negative,
0.0 if a concentration is zero and the rest are nonnegative -- silent
special values, not an exception. -/
theorem npExp_mean_log_nonpos (concs : List ℝ)
    (h : ∃ x ∈ concs, x ≤ 0) :
    npExp (rfMean (concs.map npLog)) = RF.nan ∨
      npExp (rfMean (concs.map npLog)) = RF.fin 0 := by
  by_cases hneg : ∃ x ∈ concs, x < 0
  · left
    obtain ⟨x, hx, hx0⟩ := hneg
    have hnan : RF.nan ∈ concs.map npLog := by
      refine List.mem_map.mpr ⟨x, hx, ?_⟩
      rw [npLog, if_neg (not_lt.mpr (le_of_lt hx0)), if_neg (ne_of_lt hx0)]
    rw [rfMean, rfSum_of_nan_mem hnan]
    cases (concs.map npLog).length <;> rfl
  · right
    push_neg at hneg
    obtain ⟨z, hz, hz0⟩ := h
    have hz' : z = 0 := le_antisymm hz0 (hneg z hz)
    subst hz'
    have hall : ∀ y ∈ concs.map npLog, RF.finOrNinf y := by
      intro y hy
      obtain ⟨x, hx, rfl⟩ := List.mem_map.mp hy
      rcases lt_or_eq_of_le (hneg x hx) with hpos | hzero
      · rw [npLog, if_pos hpos]; exact Or.inr ⟨_, rfl⟩
      · rw [npLog, if_neg (by rw [← hzero]; exact lt_irrefl 0),
          if_pos hzero.symm]
        exact Or.inl rfl
    have hninf : RF.ninf ∈ concs.map npLog := by
      refine List.mem_map.mpr ⟨0, hz, ?_⟩
      rw [npLog, if_neg (lt_irrefl 0), if_pos rfl]
    have hlen : (concs.map npLog).length ≠ 0 := by
      simp only [List.length_map]
      intro hlen
      rw [List.length_eq_zero.mp hlen] at hz
      cases hz
    rw [rfMean, rfSum,
      foldl_add_of_ninf_mem (concs.map npLog) (.fin 0) (Or.inr ⟨0, rfl⟩)
        hall hninf,
      RF.divNat_ninf hlen]
    rfl

/-- C3 counterexample: a table containing concentration 0 is not
rejected -- no ValidationError exists anywhere in the code -- and the
table does reach the fitter: with a raising solver the outcome is the
generic catch-all branch carrying the solver detail, and with a
succeeding solver the handler even reports a numeric ic50. -/
theorem C3_counterexample :
    ((0 : ℝ), [(0.5 : ℝ), 0.6]) ∈ coerceTable exTableZeroConc ∧ (0 : ℝ) ≤ 0 ∧
    calculateHandler exTableZeroConc exControl (failSolver "fitter raised") =
      .errorBranch "fitter raised" ∧
    (∃ out, calculateHandler exTableZeroConc exControl (okSolver exPopt exPcov) =
      .success out ∧ out.ic50 = 30) := by
  refine ⟨?_, le_refl 0, ?_, ?_⟩
  · simp [coerceTable, exTableZeroConc, coerceRow, coerceCells]
  · simp [calculateHandler, fitStage, coerceTable, exTableZeroConc, coerceRow,
      coerceCells, solverDispatch, failSolver]
  · refine ⟨⟨30, xfit [0, 1], yfit [0, 1] exPopt⟩, ?_, rfl⟩
    simp [calculateHandler, fitStage, coerceTable, exTableZeroConc, coerceRow,
      coerceCells, solverDispatch, okSolver, exPopt]

/-- C3 amended: no pre-fit validation exists.  Whenever coercion keeps
at least one row, the handler is exactly the solver dispatch (the
fitter is always consulted), and when some kept concentration is
nonpositive the ic50 seed passed to the fitter is the silent special
nan or 0.0 produced by np.log/np.exp. -/
theorem C3_amended_reaches_fitter (t : List RawRow) (c : List ℝ) (s : SolverFn)
    (h1 : coerceTable t ≠ []) (h2 : ∃ p ∈ coerceTable t, p.1 ≤ 0) :
    calculateHandler t c s = solverDispatch (coerceTable t) c s ∧
    (p0 (responseList (coerceTable t) c) (concsOf t) 2 = RF.nan ∨
     p0 (responseList (coerceTable t) c) (concsOf t) 2 = RF.fin 0) := by
  constructor
  · cases hct : coerceTable t with
    | nil => exact absurd hct h1
    | cons r rs => exact calculateHandler_cons c s hct
  · have h3 : ∃ x ∈ concsOf t, x ≤ 0 := by
      obtain ⟨p, hp, hp0⟩ := h2
      exact ⟨p.1, by simp only [concsOf]; exact List.mem_map.mpr ⟨p, hp, rfl⟩, hp0⟩
    have hdi := npExp_mean_log_nonpos (concsOf t) h3
    rcases hdi with hdi | hdi
    · left
      show npExp (rfMean ((concsOf t).map npLog)) = RF.nan
      exact hdi
    · right
      show npExp (rfMean ((concsOf t).map npLog)) = RF.fin 0
      exact hdi

/-- Witness for C3 amended at the zero-concentration fixture. -/
theorem C3_witness :
    calculateHandler exTableZeroConc exControl (failSolver "e") =
      solverDispatch (coerceTable exTableZeroConc) exControl (failSolver "e") ∧
    (p0 (responseList (coerceTable exTableZeroConc) exControl)
        (concsOf exTableZeroConc) 2 = RF.nan ∨
     p0 (responseList (coerceTable exTableZeroConc) exControl)
        (concsOf exTableZeroConc) 2 = RF.fin 0) :=
  C3_amended_reaches_fitter exTableZeroConc exControl (failSolver "e")
    (by simp [coerceTable, exTableZeroConc, coerceRow, coerceCells])
    ⟨((0 : ℝ), [(0.5 : ℝ), 0.6]),
      by simp [coerceTable, exTableZeroConc, coerceRow, coerceCells], le_refl 0⟩

/-- C4 counterexample: with the zero-mean control (the app default),
the normalization divides by zero and the infinities escape silently
into the response; no ValidationError is raised, the fitter is still
consulted, and a succeeding solver even yields a numeric result. -/
theorem C4_counterexample :
    np_mean exControlZero = RF.fin 0 ∧
    responseList (coerceTable exTable) exControlZero = [RF.pinf, RF.pinf] ∧
    calculateHandler exTable exControlZero (failSolver "fitter raised") =
      .errorBranch "fitter raised" ∧
    (∃ out, calculateHandler exTable exControlZero (okSolver exPopt exPcov) =
      .success out ∧ out.ic50 = 30) := by
  have hc : np_mean exControlZero = RF.fin 0 := by
    rw [np_mean, if_neg (by simp [exControlZero])]
    show RF.fin (meanR [0, 0]) = _
    norm_num [meanR]
  refine ⟨hc, ?_, ?_, ?_⟩
  · rw [show coerceTable exTable = [(1, [0.9, 0.8]), (10, [0.2, 0.3])] by
      simp [coerceTable, exTable, coerceRow, coerceCells]]
    rw [responseList, List.map_cons, List.map_cons, List.map_nil, hc]
    rw [show np_mean [(0.9 : ℝ), 0.8] = RF.fin 0.85 by
      rw [np_mean, if_neg (by simp)]; norm_num [meanR]]
    rw [show np_mean [(0.2 : ℝ), 0.3] = RF.fin 0.25 by
      rw [np_mean, if_neg (by simp)]; norm_num [meanR]]
    simp only [RF.div]
    norm_num
    rfl
  · simp [calculateHandler, fitStage, coerceTable, exTable, coerceRow,
      coerceCells, solverDispatch, failSolver]
  · refine ⟨⟨30, xfit [1, 10], yfit [1, 10] exPopt⟩, ?_, rfl⟩
    simp [calculateHandler, fitStage, coerceTable, exTable, coerceRow,
      coerceCells, solverDispatch, okSolver, exPopt]

/-- C4 amended: a zero control mean is never validated; every
normalized response value is a silent special (inf, -inf or nan), and
the handler still proceeds to the fitter with them. -/
theorem C4_amended_silent_inf (t : List RawRow) (c : List ℝ) (s : SolverFn)
    (h0 : c ≠ []) (hm : meanR c = 0) (h1 : coerceTable t ≠ []) :
    (∀ v ∈ responseList (coerceTable t) c,
      v = RF.pinf ∨ v = RF.ninf ∨ v = RF.nan) ∧
    calculateHandler t c s = solverDispatch (coerceTable t) c s := by
  have hc : np_mean c = RF.fin 0 := by
    rw [np_mean, if_neg h0, hm]
  constructor
  · intro v hv
    obtain ⟨r, hr, rfl⟩ := List.mem_map.mp hv
    rw [hc]
    by_cases hre : r.2 = []
    · rw [np_mean, if_pos hre]
      right; right; rfl
    · rw [np_mean, if_neg hre]
      simp only [RF.div]
      rw [if_neg (by norm_num)]
      rcases lt_trichotomy (meanR r.2) 0 with hlt | heq | hgt
      · rw [if_neg (not_lt.mpr (le_of_lt hlt)), if_pos hlt]
        right; left; rfl
      · rw [if_neg (by rw [heq]; exact lt_irrefl 0),
          if_neg (by rw [heq]; exact lt_irrefl 0)]
        right; right; rfl
      · rw [if_pos hgt]
        left; rfl
  · cases hct : coerceTable t with
    | nil => exact absurd hct h1
    | cons r rs => exact calculateHandler_cons c s hct

/-- Witness for C4 amended at exTable with the all-zero default
control. -/
theorem C4_witness :
    (∀ v ∈ responseList (coerceTable exTable) exControlZero,
      v = RF.pinf ∨ v = RF.ninf ∨ v = RF.nan) ∧
    calculateHandler exTable exControlZero (failSolver "e") =
      solverDispatch (coerceTable exTable) exControlZero (failSolver "e") :=
  C4_amended_silent_inf exTable exControlZero (failSolver "e")
    (by simp [exControlZero]) (by norm_num [exControlZero, meanR])
    (by simp [coerceTable, exTable, coerceRow, coerceCells])

/-- C5 counterexample: the supplied ic50 box constraint has lower
bound 0 and scipy bounds are closed (lb <= x <= ub), so the supplied
constraint set admits ic50 = 0; the claimed interval, open at 0,
excludes it.  The supplied box is [0, 10*max], not (0, 10*max]. -/
theorem C5_counterexample :
    bounds_lower 2 = 0 ∧
    bounds_upper [(1 : ℝ), 10] 2 = 100 ∧
    (0 : ℝ) ∈ Set.Icc (bounds_lower 2) (bounds_upper [(1 : ℝ), 10] 2) ∧
    (0 : ℝ) ∉ Set.Ioc (0 : ℝ) (bounds_upper [(1 : ℝ), 10] 2) := by
  have hu : bounds_upper [(1 : ℝ), 10] 2 = 100 := by
    show pymaxR [(1 : ℝ), 10] * 10 = 100
    norm_num [pymaxR]
  refine ⟨rfl, hu, ?_, ?_⟩
  · rw [hu]
    exact Set.mem_Icc.mpr ⟨le_refl 0, by norm_num⟩
  · rw [hu]
    intro hmem
    exact lt_irrefl 0 hmem.1

/-- C5 amended: the box constraints supplied to the fit are exactly
bottom in [0, 100], top in [50, 120], ic50 in [0, 10*max(concs)]
(closed at 0 under the solver's lb <= x <= ub semantics) and hill in
[0.1, 5], and under the scipy bound contract every successful fit
returns parameters inside these closed boxes. -/
theorem C5_amended_closed_bounds (t : List RawRow) (c : List ℝ) (s : SolverFn)
    (hs : SolverContract s) (popt : Fin 4 → ℝ) (pcov : Fin 4 → Fin 4 → ℝ)
    (r : ℝ × List ℝ) (rs : List (ℝ × List ℝ)) (hct : coerceTable t = r :: rs)
    (hok : s ((r :: rs).map Prod.fst) (responseList (r :: rs) c)
        (p0 (responseList (r :: rs) c) ((r :: rs).map Prod.fst))
        bounds_lower (bounds_upper ((r :: rs).map Prod.fst)) = .ok (popt, pcov)) :
    Set.Icc (bounds_lower 0) (bounds_upper ((r :: rs).map Prod.fst) 0) =
      Set.Icc 0 100 ∧
    Set.Icc (bounds_lower 1) (bounds_upper ((r :: rs).map Prod.fst) 1) =
      Set.Icc 50 120 ∧
    Set.Icc (bounds_lower 2) (bounds_upper ((r :: rs).map Prod.fst) 2) =
      Set.Icc 0 (pymaxR ((r :: rs).map Prod.fst) * 10) ∧
    Set.Icc (bounds_lower 3) (bounds_upper ((r :: rs).map Prod.fst) 3) =
      Set.Icc 0.1 5 ∧
    (∀ i, popt i ∈ Set.Icc (bounds_lower i) (bounds_upper ((r :: rs).map Prod.fst) i)) ∧
    calculateHandler t c s = .success ⟨popt 2, xfit ((r :: rs).map Prod.fst),
      yfit ((r :: rs).map Prod.fst) popt⟩ := by
  refine ⟨rfl, rfl, rfl, rfl, ?_, ?_⟩
  · intro i
    obtain ⟨hlo, hhi⟩ := hs _ _ _ _ _ _ _ hok i
    exact Set.mem_Icc.mpr ⟨hlo, hhi⟩
  · rw [calculateHandler_cons c s hct, solverDispatch_eq, hok]

/-- Witness for C5 amended: the bound-respecting feasSolver on
exTable. -/
theorem C5_witness :
    Set.Icc (bounds_lower 0)
        (bounds_upper (([((1:ℝ), [(0.9:ℝ), 0.8]), ((10:ℝ), [(0.2:ℝ), 0.3])]).map Prod.fst) 0) =
      Set.Icc 0 100 ∧
    Set.Icc (bounds_lower 1)
        (bounds_upper (([((1:ℝ), [(0.9:ℝ), 0.8]), ((10:ℝ), [(0.2:ℝ), 0.3])]).map Prod.fst) 1) =
      Set.Icc 50 120 ∧
    Set.Icc (bounds_lower 2)
        (bounds_upper (([((1:ℝ), [(0.9:ℝ), 0.8]), ((10:ℝ), [(0.2:ℝ), 0.3])]).map Prod.fst) 2) =
      Set.Icc 0 (pymaxR (([((1:ℝ), [(0.9:ℝ), 0.8]), ((10:ℝ), [(0.2:ℝ), 0.3])]).map Prod.fst) * 10) ∧
    Set.Icc (bounds_lower 3)
        (bounds_upper (([((1:ℝ), [(0.9:ℝ), 0.8]), ((10:ℝ), [(0.2:ℝ), 0.3])]).map Prod.fst) 3) =
      Set.Icc 0.1 5 ∧
    (∀ i, bounds_lower i ∈ Set.Icc (bounds_lower i)
      (bounds_upper (([((1:ℝ), [(0.9:ℝ), 0.8]), ((10:ℝ), [(0.2:ℝ), 0.3])]).map Prod.fst) i)) ∧
    calculateHandler exTable exControl feasSolver =
      .success ⟨bounds_lower 2,
        xfit (([((1:ℝ), [(0.9:ℝ), 0.8]), ((10:ℝ), [(0.2:ℝ), 0.3])]).map Prod.fst),
        yfit (([((1:ℝ), [(0.9:ℝ), 0.8]), ((10:ℝ), [(0.2:ℝ), 0.3])]).map Prod.fst) bounds_lower⟩ := by
  have hfeas : ∀ i : Fin 4, bounds_lower i ≤
      bounds_upper (([((1:ℝ), [(0.9:ℝ), 0.8]), ((10:ℝ), [(0.2:ℝ), 0.3])]).map Prod.fst) i := by
    intro i
    fin_cases i <;> norm_num [bounds_lower, bounds_upper, pymaxR]
  exact C5_amended_closed_bounds exTable exControl feasSolver feasSolver_contract
    bounds_lower (fun _ _ => 0) ((1:ℝ), [(0.9:ℝ), 0.8]) [((10:ℝ), [(0.2:ℝ), 0.3])]
    (by simp [coerceTable, exTable, coerceRow, coerceCells])
    (by unfold feasSolver; rw [if_pos hfeas])

/-- C7: the solver seed is exactly bottom0 = min(response),
top0 = max(response), ic50_0 = the geometric mean of the
concentrations (exp of the mean of the logs, equal to the n-th root of
the product for positive concentrations) and hill0 = 1. -/
theorem C7_initial_guess (resp concs : List ℝ) (h1 : resp ≠ []) (h2 : concs ≠ [])
    (h3 : ∀ x ∈ concs, 0 < x) :
    (∃ m, p0 (resp.map RF.fin) concs 0 = .fin m ∧ m ∈ resp ∧ ∀ x ∈ resp, m ≤ x) ∧
    (∃ M, p0 (resp.map RF.fin) concs 1 = .fin M ∧ M ∈ resp ∧ ∀ x ∈ resp, x ≤ M) ∧
    p0 (resp.map RF.fin) concs 2 = .fin (concs.prod ^ ((concs.length : ℝ))⁻¹) ∧
    p0 (resp.map RF.fin) concs 3 = .fin 1 := by
  obtain ⟨a, as, rfl⟩ : ∃ a as, resp = a :: as := by
    cases resp with
    | nil => exact absurd rfl h1
    | cons a as => exact ⟨a, as, rfl⟩
  refine ⟨⟨as.foldl min a, ?_, ?_, ?_⟩, ⟨as.foldl max a, ?_, ?_, ?_⟩, ?_, rfl⟩
  · show pymin ((a :: as).map RF.fin) = _
    rw [List.map_cons]
    exact foldl_pymin2_map_fin as a
  · rcases foldl_min_mem as a with h | h
    · rw [h]; exact List.mem_cons_self a as
    · exact List.mem_cons_of_mem _ h
  · intro x hx
    rcases List.mem_cons.mp hx with h | h
    · rw [h]; exact foldl_min_le_init as a
    · exact foldl_min_le_mem as a x h
  · show pymax ((a :: as).map RF.fin) = _
    rw [List.map_cons]
    exact foldl_pymax2_map_fin as a
  · rcases foldl_max_mem as a with h | h
    · rw [h]; exact List.mem_cons_self a as
    · exact List.mem_cons_of_mem _ h
  · intro x hx
    rcases List.mem_cons.mp hx with h | h
    · rw [h]; exact foldl_max_init_le as a
    · exact foldl_max_mem_le as a x h
  · show npExp (rfMean (concs.map npLog)) = _
    exact npExp_mean_log_eq_geom concs h2 h3

/-- Witness for C7 at response [1, 2] and concentrations [4]. -/
theorem C7_witness :
    (∃ m, p0 ([(1:ℝ), 2].map RF.fin) [(4:ℝ)] 0 = .fin m ∧ m ∈ [(1:ℝ), 2] ∧
      ∀ x ∈ [(1:ℝ), 2], m ≤ x) ∧
    (∃ M, p0 ([(1:ℝ), 2].map RF.fin) [(4:ℝ)] 1 = .fin M ∧ M ∈ [(1:ℝ), 2] ∧
      ∀ x ∈ [(1:ℝ), 2], x ≤ M) ∧
    p0 ([(1:ℝ), 2].map RF.fin) [(4:ℝ)] 2 =
      .fin (List.prod [(4:ℝ)] ^ ((List.length [(4:ℝ)] : ℝ))⁻¹) ∧
    p0 ([(1:ℝ), 2].map RF.fin) [(4:ℝ)] 3 = .fin 1 :=
  C7_initial_guess [1, 2] [4] (by simp) (by simp) (by norm_num)

/-- Element k of the sampled abscissa list, in closed form. -/
theorem xfit_getElem (concs : List ℝ) (k : ℕ) (hk : k < 300) :
    (xfit concs)[k]? = some ((10 : ℝ) ^ (np_log10 (pyminR concs) + (k : ℝ) *
      ((np_log10 (pymaxR concs) - np_log10 (pyminR concs)) /
        (((300 : ℕ) : ℝ) - 1)))) := by
  rw [xfit, np_logspace, List.getElem?_map, List.getElem?_range hk]
  rfl

/-- getD form of xfit_getElem. -/
theorem xfit_getD (concs : List ℝ) (k : ℕ) (hk : k < 300) :
    (xfit concs).getD k 0 = (10 : ℝ) ^ (np_log10 (pyminR concs) + (k : ℝ) *
      ((np_log10 (pymaxR concs) - np_log10 (pyminR concs)) /
        (((300 : ℕ) : ℝ) - 1))) := by
  rw [List.getD_eq_getElem?_getD, xfit_getElem concs k hk]
  rfl

/-- C8: the curve sampler emits exactly 300 points (at least 300), the
first abscissa is min(concs) and the last is max(concs), consecutive
abscissas are equally spaced in log10 (log-uniform coverage of the
tested range), and every ordinate is the 4PL model at its abscissa
with the fitted parameters; the sampler is a pure function of its
inputs. -/
theorem C8_curve_sampler (concs : List ℝ) (popt : Fin 4 → ℝ)
    (hmin : 0 < pyminR concs) (hmax : 0 < pymaxR concs) :
    (xfit concs).length = 300 ∧
    (xfit concs).head? = some (pyminR concs) ∧
    (xfit concs).getLast? = some (pymaxR concs) ∧
    (∀ k, k + 1 < 300 →
      Real.logb 10 ((xfit concs).getD (k + 1) 0) -
        Real.logb 10 ((xfit concs).getD k 0) =
      (Real.logb 10 (pymaxR concs) - Real.logb 10 (pyminR concs)) / 299) ∧
    yfit concs popt = (xfit concs).map fun x =>
      four_pl x (popt 0) (popt 1) (popt 2) (popt 3) := by
  have hlen : (xfit concs).length = 300 := by
    rw [xfit, np_logspace]
    simp
  have hcast : (((300 : ℕ) : ℝ) - 1) = 299 := by norm_num
  refine ⟨hlen, ?_, ?_, ?_, rfl⟩
  · rw [List.head?_eq_getElem?, xfit_getElem concs 0 (by norm_num)]
    congr 1
    rw [Nat.cast_zero, zero_mul, add_zero]
    exact Real.rpow_logb (by norm_num) (by norm_num) hmin
  · rw [List.getLast?_eq_getElem?, hlen,
      show (300 - 1 : ℕ) = 299 from rfl,
      xfit_getElem concs 299 (by norm_num)]
    congr 1
    rw [hcast, show ((299 : ℕ) : ℝ) = 299 from by norm_num]
    have hstep : (299 : ℝ) *
        ((np_log10 (pymaxR concs) - np_log10 (pyminR concs)) / 299) =
        np_log10 (pymaxR concs) - np_log10 (pyminR concs) := by
      rw [mul_comm]
      exact div_mul_cancel₀ _ (by norm_num)
    rw [hstep, show np_log10 (pyminR concs) +
        (np_log10 (pymaxR concs) - np_log10 (pyminR concs)) =
        np_log10 (pymaxR concs) from by ring]
    exact Real.rpow_logb (by norm_num) (by norm_num) hmax
  · intro k hk
    rw [xfit_getD concs (k + 1) hk, xfit_getD concs k (by omega),
      Real.logb_rpow (by norm_num) (by norm_num),
      Real.logb_rpow (by norm_num) (by norm_num)]
    simp only [np_log10, hcast]
    push_cast
    ring

/-- Witness for C8 at concentrations [1, 10] and the fixture fit. -/
theorem C8_witness :
    (xfit [(1:ℝ), 10]).length = 300 ∧
    (xfit [(1:ℝ), 10]).head? = some (pyminR [(1:ℝ), 10]) ∧
    (xfit [(1:ℝ), 10]).getLast? = some (pymaxR [(1:ℝ), 10]) ∧
    (∀ k, k + 1 < 300 →
      Real.logb 10 ((xfit [(1:ℝ), 10]).getD (k + 1) 0) -
        Real.logb 10 ((xfit [(1:ℝ), 10]).getD k 0) =
      (Real.logb 10 (pymaxR [(1:ℝ), 10]) - Real.logb 10 (pyminR [(1:ℝ), 10])) / 299) ∧
    yfit [(1:ℝ), 10] exPopt = (xfit [(1:ℝ), 10]).map fun x =>
      four_pl x (exPopt 0) (exPopt 1) (exPopt 2) (exPopt 3) :=
  C8_curve_sampler [1, 10] exPopt (by norm_num [pyminR]) (by norm_num [pymaxR])

end Turguts
